import Mathlib

/-!
Verification of the joint secret-sharing subsystem of the `poly` package
(`poly/joint.go`): the `Dealer`/`Receiver` orchestration around a Pedersen-style
verifiable secret sharing.  The `Receiver.AddDealer` / `Receiver.ProduceSharedSecret`
and `Dealer.AddResponse` / `Dealer.Certified` functions are translated directly
from `poly/joint.go`.  The `PubPoly` / `Promise` / `Response` / `State` machinery
that `joint.go` calls lives outside the provided sources, so those components are
modelled from the design document (its sections on PubPoly, Promise and
State/Response contracts), over a concrete abelian group: scalars and points are
both the integers, with base point 1, so a commitment to a coefficient `a` is
`a * base`.  This keeps every definition executable while preserving the
homomorphic structure the aggregation relies on.
-/

namespace Joint

/-- Modelled from the spec: the GroupSuite scalar type (an abstract field/ring of
exponents).  Concretely the integers. -/
abbrev Scalar : Type := Int

/-- Modelled from the spec: the GroupSuite point type (an abstract abelian group).
Concretely the integers under addition. -/
abbrev Point : Type := Int

/-- Modelled from the spec: the suite's base point (`Suite.Point().Base()` in the
source), the generator against which coefficients are committed. -/
def commitBase : Point := 1

/-- Modelled from the spec: a keypair from the `config.KeyPair` collaborator:
`{PublicKey: point, PrivateKey: scalar}`.  The share protection it drives is
cryptographic hiding, which has no effect on the control flow verified here, so
the modelled operations below do not inspect it. -/
structure KeyPair where
  Public : Point
  Secret : Scalar
deriving Repr, DecidableEq

/-- Horner evaluation of a committed-coefficient (or scalar-coefficient) list at
a point `x`: `c0 + x*(c1 + x*(...))`. -/
def polyEval (coeffs : List Point) (x : Int) : Point :=
  coeffs.foldr (fun c acc => c + x * acc) 0

/-- Modelled from the spec: `PubPoly` is a commitment to a polynomial: a base
point plus the sequence of committed coefficients. -/
structure PubPoly where
  b : Point
  coeffs : List Point
deriving Repr, DecidableEq

/-- Modelled from the spec: `InitNull(suite, t, basePoint)` initializes a
degree-`(t-1)` polynomial whose committed coefficients are all the group
identity relative to `basePoint`. -/
def PubPoly.InitNull (t : Nat) (base : Point) : PubPoly :=
  ⟨base, List.replicate t 0⟩

/-- Modelled from the spec: `Add` produces the coefficient-wise group-addition of
two PubPolys sharing degree and base point. -/
def PubPoly.Add (p q : PubPoly) : PubPoly :=
  ⟨p.b, List.zipWith (· + ·) p.coeffs q.coeffs⟩

/-- Modelled from the spec: `Check(index, share)` evaluates the committed
polynomial at `index` and verifies it equals the group's representation of
`share`; returns false (not an error) on mismatch. -/
def PubPoly.Check (p : PubPoly) (i : Int) (s : Scalar) : Bool :=
  polyEval p.coeffs i == s * p.b

/-- Modelled from the spec: a `Response` is a receiver's acknowledgment that its
share for a given index validated; it carries no secret, only the identity of
the acknowledged index. -/
structure Response where
  idx : Int
deriving Repr, DecidableEq

/-- Modelled from the spec: error kinds of `Promise.ProduceResponse` (a
validation failure against the commitment, or a missing share for the index). -/
inductive PromiseError
  | noShare (i : Int)
  | invalidShare (i : Int)
deriving Repr, DecidableEq

/-- Modelled from the spec: a dealer's `Promise`: the reconstruction and
certification thresholds, the PubPoly commitment to the dealer's secret
polynomial, and for each receiver index in `[0, N)` that receiver's share of the
secret polynomial evaluated at its index. -/
structure Promise where
  t : Nat
  r : Nat
  pub : PubPoly
  shares : List Scalar
deriving Repr, DecidableEq

/-- Modelled from the spec: look up the protected share stored for (possibly
negative) receiver index `i`; indices outside `[0, N)` have no share. -/
def getShare (shares : List Scalar) (i : Int) : Option Scalar :=
  if i < 0 then none else shares[i.toNat]?

/-- Modelled from the spec: `ConstructPromise` commits to the dealer's secret
polynomial (given here by its coefficient list, whose constant term is the
dealer's secret) and computes each receiver's point-evaluation share.  The
dealer's random polynomial choice is taken as a parameter. -/
def Promise.ConstructPromise (secretPoly : List Scalar) (t r n : Nat) : Promise :=
  { t := t, r := r,
    pub := ⟨commitBase, secretPoly.map (fun a => a * commitBase)⟩,
    shares := (List.range n).map (fun j => polyEval secretPoly (Int.ofNat j)) }

/-- Modelled from the spec: `ProduceResponse(index, receiverKeyPair)` recovers
the receiver's share from the Promise, verifies it against the PubPoly
commitment via `Check`, and on success returns a Response for that index. -/
def Promise.ProduceResponse (p : Promise) (i : Int) (_key : KeyPair) :
    Except PromiseError Response :=
  match getShare p.shares i with
  | none => .error (.noShare i)
  | some s => if p.pub.Check i s then .ok ⟨i⟩ else .error (.invalidShare i)

/-- Modelled from the spec: error kinds of the `State` operations: malformed
mutation attempts (out-of-range index, duplicate or forged Response), a
certification shortfall, or a missing share at reveal time. -/
inductive StateError
  | outOfRange (i : Int)
  | duplicateResponse (i : Int)
  | invalidResponse (i : Int)
  | shortfall (got need : Nat)
  | noShare (i : Int)
deriving Repr, DecidableEq

/-- Modelled from the spec: per-dealer bookkeeping: the promise plus the mutable
accumulator mapping receiver index to Response (at most one per index). -/
structure State where
  promise : Promise
  responses : List (Int × Response)
deriving Repr, DecidableEq

/-- Modelled from the spec: `State.Init(promise)` starts with zero accepted
Responses. -/
def State.Init (p : Promise) : State := ⟨p, []⟩

/-- Modelled from the spec: `AddResponse(index, response)` records a Response for
`index`; fails if `index` is out of range, if a conflicting Response already
exists for that index, or if the Response does not match the Promise's
commitment for that index. -/
def State.AddResponse (st : State) (i : Int) (resp : Response) :
    Except StateError State :=
  if i < 0 ∨ (st.promise.shares.length : Int) ≤ i then .error (.outOfRange i)
  else if (st.responses.lookup i).isSome then .error (.duplicateResponse i)
  else if resp.idx ≠ i then .error (.invalidResponse i)
  else .ok ⟨st.promise, st.responses ++ [(i, resp)]⟩

/-- Modelled from the spec: `PromiseCertified` returns success once the count of
valid, distinct accepted Responses is at least `R`, otherwise an error
describing the shortfall. -/
def State.PromiseCertified (st : State) : Except StateError Unit :=
  if st.promise.r ≤ st.responses.length then .ok ()
  else .error (.shortfall st.responses.length st.promise.r)

/-- Modelled from the spec: `RevealShare(index, requesterKeyPair)` returns the
raw scalar share for `index`; it fails if the dealer is not certified or the
index has no share. -/
def State.RevealShare (st : State) (i : Int) (_key : KeyPair) :
    Except StateError Scalar :=
  match st.PromiseCertified with
  | .error e => .error e
  | .ok _ =>
    match getShare st.promise.shares i with
    | none => .error (.noShare i)
    | some s => .ok s

/-- `PolyInfo` from `joint.go`: thresholds `T` (reconstruction), `R`
(certification) and `N` (participants).  The `Suite` field is the fixed concrete
group of this embedding and is therefore dropped. -/
structure PolyInfo where
  T : Nat
  R : Nat
  N : Nat
deriving Repr, DecidableEq

/-- `Dealer` from `joint.go`: config, the dealer's Promise and its State. -/
structure Dealer where
  info : PolyInfo
  promise : Promise
  state : State
deriving Repr, DecidableEq

/-- `Dealer.Init` from `joint.go`: creates the promise of the dealer and its
response-tracking state.  The dealer's secret polynomial is a parameter (the
source draws it from the suite's randomness via the key pairs). -/
def Dealer.Init (info : PolyInfo) (secretPoly : List Scalar) : Dealer :=
  let p := Promise.ConstructPromise secretPoly info.T info.R info.N
  ⟨info, p, State.Init p⟩

/-- `Dealer.AddResponse` from `joint.go`: delegates to `State.AddResponse`.  The
Go method mutates the dealer's state; here the updated dealer is returned. -/
def Dealer.AddResponse (d : Dealer) (i : Int) (resp : Response) :
    Except StateError Dealer :=
  match d.state.AddResponse i resp with
  | .ok st => .ok ⟨d.info, d.promise, st⟩
  | .error e => .error e

/-- `Dealer.Certified` from `joint.go`: delegates to `State.PromiseCertified`. -/
def Dealer.Certified (d : Dealer) : Except StateError Unit :=
  d.state.PromiseCertified

/-- A sequence of `Dealer.AddResponse` calls, applied in order; a call that
fails leaves the dealer unchanged (as in the Go code, where a failed
`AddResponse` does not mutate the state) and the sequence continues. -/
def Dealer.applyResponses (d : Dealer) : List (Int × Response) → Dealer
  | [] => d
  | (i, resp) :: rest =>
    match d.AddResponse i resp with
    | .ok d2 => d2.applyResponses rest
    | .error _ => d.applyResponses rest

/-- `SharedSecret` from `joint.go`: the aggregate public polynomial, this
receiver's share of the aggregate secret, and the receiver's index. -/
structure SharedSecret where
  Pub : PubPoly
  Share : Scalar
  Index : Int
deriving Repr, DecidableEq

/-- The error kinds produced by `joint.go` itself (the source builds them with
`errors.New(fmt.Sprintf(...))`; each constructor carries exactly the format
arguments of the corresponding call site, plus the propagated inner error where
the source wraps one). -/
inductive JointError
  | wrongIndex (got expected : Int)
  | responseFail (e : PromiseError)
  | zeroDealers
  | revealFail (receiverIdx : Int) (dealerIdx : Nat) (e : StateError)
  | insufficientShares
  | checkFailed
deriving Repr, DecidableEq

/-- `Receiver` from `joint.go`: config, the bound index (`-1` until the first
dealer is received), the receiver's long-term key pair, and the accepted
dealers. -/
structure Receiver where
  info : PolyInfo
  index : Int
  Key : KeyPair
  Dealers : List Dealer
deriving Repr, DecidableEq

/-- `Receiver.Init` from `joint.go`: index `-1` (no dealer received yet), empty
dealer list. -/
def Receiver.Init (info : PolyInfo) (key : KeyPair) : Receiver :=
  ⟨info, -1, key, []⟩

/-- The `(Response, error)` pair returned by `Receiver.AddDealer`, together with
the updated receiver (the Go method mutates the receiver in place). -/
structure AddDealerResult where
  recv : Receiver
  resp : Option Response
  err : Option JointError
deriving Repr, DecidableEq

/-- `Receiver.AddDealer` from `joint.go`: if the receiver's index is the `-1`
sentinel it is set to `index`; then a differing index is rejected with the
wrong-index error; otherwise the dealer's promise produces a response, the
dealer is appended to the accepted list regardless of that response's error, and
the response and error are returned as produced. -/
def Receiver.AddDealer (r : Receiver) (index : Int) (dealer : Dealer) :
    AddDealerResult :=
  let r1 := if r.index = -1 then { r with index := index } else r
  if r1.index ≠ index then
    ⟨r1, none, some (.wrongIndex index r1.index)⟩
  else
    match dealer.promise.ProduceResponse index r1.Key with
    | .ok resp => ⟨{ r1 with Dealers := r1.Dealers ++ [dealer] }, some resp, none⟩
    | .error e => ⟨{ r1 with Dealers := r1.Dealers ++ [dealer] }, none, some (.responseFail e)⟩

/-- The dealer scan loop of `Receiver.ProduceSharedSecret` from `joint.go`:
walks the accepted dealers in order carrying the loop position (used in the
error message), the aggregate PubPoly, the aggregate share and the good-share
count; breaks out once `T` good shares are accumulated, and returns the
reveal-failure error as soon as a `RevealShare` call fails. -/
def scanDealers (tThr : Nat) (rIndex : Int) (key : KeyPair) :
    List Dealer → Nat → PubPoly → Scalar → Nat →
    Except JointError (PubPoly × Scalar × Nat)
  | [], _, pub, share, good => .ok (pub, share, good)
  | d :: ds, pos, pub, share, good =>
    if tThr ≤ good then .ok (pub, share, good)
    else
      match d.state.RevealShare rIndex key with
      | .error e => .error (.revealFail rIndex pos e)
      | .ok s =>
        scanDealers tThr rIndex key ds (pos + 1) (pub.Add d.promise.pub)
          (share + s) (good + 1)

/-- `Receiver.ProduceSharedSecret` from `joint.go`: requires at least one
accepted dealer; scans the dealers accumulating shares and commitments; fails
with the insufficiency error if fewer than `T` good shares were accumulated;
verifies the aggregate share against the aggregate polynomial and fails with
the consistency error if the check is false; otherwise returns the
`SharedSecret`. -/
def Receiver.ProduceSharedSecret (r : Receiver) : Except JointError SharedSecret :=
  if r.Dealers.length < 1 then .error .zeroDealers
  else
    match scanDealers r.info.T r.index r.Key r.Dealers 0
        (PubPoly.InitNull r.info.T commitBase) 0 0 with
    | .error e => .error e
    | .ok (pub, share, good) =>
      if good < r.info.T then .error .insufficientShares
      else if pub.Check r.index share = false then .error .checkFailed
      else .ok ⟨pub, share, r.index⟩

/-- Whether a dealer's `RevealShare` succeeds for index `i` (the loop body's
`e != nil` test). -/
def revealOk (d : Dealer) (i : Int) (k : KeyPair) : Bool :=
  match d.state.RevealShare i k with
  | .ok _ => true
  | .error _ => false

/-- The scalar revealed by a dealer for index `i` (0 when the reveal fails). -/
def revealVal (d : Dealer) (i : Int) (k : KeyPair) : Scalar :=
  match d.state.RevealShare i k with
  | .ok s => s
  | .error _ => 0

/-- Whether an `AddDealer` error is the wrong-index (index-mismatch) error. -/
def isWrongIndexErr : Option JointError → Bool
  | some (.wrongIndex _ _) => true
  | _ => false

/-- Whether a `ProduceSharedSecret` outcome is a success. -/
def produceOk : Except JointError SharedSecret → Bool
  | .ok _ => true
  | .error _ => false

instance {ε α : Type} [DecidableEq ε] [DecidableEq α] : DecidableEq (Except ε α) :=
  fun x y =>
    match x, y with
    | .ok a, .ok b =>
      if h : a = b then isTrue (h ▸ rfl) else isFalse (fun hc => h (Except.ok.inj hc))
    | .ok _, .error _ => isFalse (fun hc => Except.noConfusion hc)
    | .error _, .ok _ => isFalse (fun hc => Except.noConfusion hc)
    | .error a, .error b =>
      if h : a = b then isTrue (h ▸ rfl) else isFalse (fun hc => h (Except.error.inj hc))

/-! Concrete protocol instances used as witnesses: a certified honest dealer
`dH` dealing the constant polynomial `[5]` under `T = R = 1`, `N = 2`, an
uncertified dealer `dBad` (whose `RevealShare` therefore fails), two distinct
certified dealers `dA`/`dB`, and receivers in various states. -/

def info1 : PolyInfo := ⟨1, 1, 2⟩

def info2 : PolyInfo := ⟨2, 1, 2⟩

def key0 : KeyPair := ⟨0, 0⟩

def honestPromise : Promise := Promise.ConstructPromise [5] 1 1 2

def dH : Dealer := ⟨info1, honestPromise, ⟨honestPromise, [((0 : Int), ⟨0⟩)]⟩⟩

def dBad : Dealer := ⟨info1, honestPromise, State.Init honestPromise⟩

def promA : Promise := Promise.ConstructPromise [3] 1 1 2

def promB : Promise := Promise.ConstructPromise [4] 1 1 2

def dA : Dealer := ⟨info1, promA, ⟨promA, [((0 : Int), ⟨0⟩)]⟩⟩

def dB : Dealer := ⟨info1, promB, ⟨promB, [((0 : Int), ⟨0⟩)]⟩⟩

def rA : Receiver := ⟨info1, 0, key0, [dH]⟩

def rB : Receiver := ⟨info1, 1, key0, [dH]⟩

def rBadGood : Receiver := ⟨info1, 0, key0, [dBad, dH]⟩

def rGoodBad : Receiver := ⟨info2, 0, key0, [dH, dBad]⟩

def rShort : Receiver := ⟨info2, 0, key0, [dH]⟩

def rEmpty : Receiver := ⟨info1, 0, key0, []⟩

def rBound : Receiver := ⟨info1, 2, key0, []⟩

def dEmpty : Dealer := ⟨info1, ⟨1, 1, ⟨1, [7]⟩, []⟩, State.Init ⟨1, 1, ⟨1, [7]⟩, []⟩⟩

def r1sw : Receiver := ⟨info1, 0, key0, [dA, dB]⟩

def r2sw : Receiver := ⟨info1, 1, key0, [dB, dA]⟩

def ssA : SharedSecret := ⟨⟨1, [5]⟩, 5, 0⟩

def ssB : SharedSecret := ⟨⟨1, [5]⟩, 5, 1⟩

def ssSw1 : SharedSecret := ⟨⟨1, [3]⟩, 3, 0⟩

def ssSw2 : SharedSecret := ⟨⟨1, [4]⟩, 4, 1⟩

/-! Lemmas about the dealer scan of `ProduceSharedSecret`. -/

/-- When every dealer in the still-needed prefix reveals successfully, the scan
succeeds and returns the folded aggregate polynomial, the summed shares and the
increased good-share count over exactly that prefix. -/
theorem scanDealers_all_good (tThr : Nat) (i : Int) (k : KeyPair) :
    ∀ (ds : List Dealer) (pos : Nat) (pub : PubPoly) (share : Scalar) (good : Nat),
      (∀ d ∈ ds.take (tThr - good), revealOk d i k = true) →
      scanDealers tThr i k ds pos pub share good =
        .ok ((ds.take (tThr - good)).foldl (fun acc d => acc.Add d.promise.pub) pub,
             share + ((ds.take (tThr - good)).map (fun d => revealVal d i k)).sum,
             good + (ds.take (tThr - good)).length) := by
  intro ds
  induction ds with
  | nil => intro pos pub share good _; simp [scanDealers]
  | cons d ds ih =>
    intro pos pub share good h
    by_cases htg : tThr ≤ good
    · have h0 : tThr - good = 0 := Nat.sub_eq_zero_of_le htg
      simp [scanDealers, htg, h0]
    · have hsub : tThr - good = (tThr - (good + 1)) + 1 := by omega
      have htake : (d :: ds).take (tThr - good) = d :: ds.take (tThr - (good + 1)) := by
        rw [hsub, List.take_succ_cons]
      have hd : revealOk d i k = true := by
        apply h d; rw [htake]; exact List.mem_cons_self _ _
      obtain ⟨s, hs⟩ : ∃ s, d.state.RevealShare i k = .ok s := by
        unfold revealOk at hd
        cases hrev : d.state.RevealShare i k with
        | ok s => exact ⟨s, rfl⟩
        | error e => rw [hrev] at hd; simp at hd
      have hval : revealVal d i k = s := by unfold revealVal; rw [hs]
      have hrest : ∀ d' ∈ ds.take (tThr - (good + 1)), revealOk d' i k = true := by
        intro d' hd'
        exact h d' (by rw [htake]; exact List.mem_cons_of_mem _ hd')
      rw [htake]
      simp only [scanDealers, if_neg htg, hs, List.foldl_cons, List.map_cons,
        List.sum_cons, List.length_cons]
      rw [ih (pos + 1) (pub.Add d.promise.pub) (share + s) (good + 1) hrest]
      simp only [Except.ok.injEq, Prod.mk.injEq, hval]
      exact ⟨trivial, by ring, by omega⟩

/-- If the scan succeeds then every dealer in the still-needed prefix revealed
successfully. -/
theorem scanDealers_ok_good (tThr : Nat) (i : Int) (k : KeyPair) :
    ∀ (ds : List Dealer) (pos : Nat) (pub : PubPoly) (share : Scalar) (good : Nat) out,
      scanDealers tThr i k ds pos pub share good = .ok out →
      ∀ d ∈ ds.take (tThr - good), revealOk d i k = true := by
  intro ds
  induction ds with
  | nil => intro pos pub share good out _; simp
  | cons d ds ih =>
    intro pos pub share good out h
    by_cases htg : tThr ≤ good
    · have h0 : tThr - good = 0 := Nat.sub_eq_zero_of_le htg
      simp [h0]
    · have hsub : tThr - good = (tThr - (good + 1)) + 1 := by omega
      have htake : (d :: ds).take (tThr - good) = d :: ds.take (tThr - (good + 1)) := by
        rw [hsub, List.take_succ_cons]
      simp only [scanDealers, if_neg htg] at h
      cases hrev : d.state.RevealShare i k with
      | error e => rw [hrev] at h; exact absurd h (by simp)
      | ok s =>
        rw [hrev] at h
        rw [htake]
        intro d' hd'
        rcases List.mem_cons.mp hd' with hd' | hd'
        · subst hd'; unfold revealOk; rw [hrev]
        · exact ih (pos + 1) (pub.Add d.promise.pub) (share + s) (good + 1) out h d' hd'

/-- When all dealers before position `p` reveal successfully, the dealer at
position `p` fails, and fewer than the still-needed number of good shares
precede it, the scan aborts with the reveal-failure error at position `p`,
whatever dealers follow. -/
theorem scanDealers_error_split (tThr : Nat) (i : Int) (k : KeyPair) :
    ∀ (ds1 : List Dealer) (d : Dealer) (ds2 : List Dealer) (pos : Nat)
      (pub : PubPoly) (share : Scalar) (good : Nat) (e : StateError),
      (∀ d' ∈ ds1, revealOk d' i k = true) →
      d.state.RevealShare i k = .error e →
      ds1.length < tThr - good →
      scanDealers tThr i k (ds1 ++ d :: ds2) pos pub share good =
        .error (.revealFail i (pos + ds1.length) e) := by
  intro ds1
  induction ds1 with
  | nil =>
    intro d ds2 pos pub share good e _ hfail hreach
    have htg : ¬ (tThr ≤ good) := by simp at hreach; omega
    simp only [List.nil_append, List.length_nil, Nat.add_zero]
    simp only [scanDealers, if_neg htg, hfail]
  | cons d1 ds1 ih =>
    intro d ds2 pos pub share good e hgood hfail hreach
    have htg : ¬ (tThr ≤ good) := by simp at hreach; omega
    have hd1 : revealOk d1 i k = true := hgood d1 (List.mem_cons_self _ _)
    obtain ⟨s, hs⟩ : ∃ s, d1.state.RevealShare i k = .ok s := by
      unfold revealOk at hd1
      cases hrev : d1.state.RevealShare i k with
      | ok s => exact ⟨s, rfl⟩
      | error e => rw [hrev] at hd1; simp at hd1
    simp only [List.cons_append]
    simp only [scanDealers, if_neg htg, hs]
    rw [ih d ds2 (pos + 1) (pub.Add d1.promise.pub) (share + s) (good + 1) e
      (fun d' hd' => hgood d' (List.mem_cons_of_mem _ hd')) hfail
      (by simp at hreach ⊢; omega)]
    rw [show pos + 1 + ds1.length = pos + (d1 :: ds1).length from by simp; omega]

/-- Master inversion for a successful `ProduceSharedSecret`: the threshold is
covered by the accepted dealers, the first `T` of them all reveal successfully,
and the returned secret is exactly the aggregation over that prefix, carries the
receiver's index, and passes the aggregate check. -/
theorem produce_ok_parts (r : Receiver) (ss : SharedSecret)
    (h : r.ProduceSharedSecret = .ok ss) :
    r.info.T ≤ r.Dealers.length ∧
    (∀ d ∈ r.Dealers.take r.info.T, revealOk d r.index r.Key = true) ∧
    ss.Share = ((r.Dealers.take r.info.T).map (fun d => revealVal d r.index r.Key)).sum ∧
    ss.Pub = (r.Dealers.take r.info.T).foldl (fun acc d => acc.Add d.promise.pub)
        (PubPoly.InitNull r.info.T commitBase) ∧
    ss.Index = r.index ∧
    ss.Pub.Check r.index ss.Share = true := by
  unfold Receiver.ProduceSharedSecret at h
  split at h
  · exact absurd h (by simp)
  cases hscan : scanDealers r.info.T r.index r.Key r.Dealers 0
      (PubPoly.InitNull r.info.T commitBase) 0 0 with
  | error e => rw [hscan] at h; exact absurd h (by simp)
  | ok out =>
    obtain ⟨pub, share, good⟩ := out
    rw [hscan] at h
    have hall : ∀ d ∈ r.Dealers.take r.info.T, revealOk d r.index r.Key = true := by
      have := scanDealers_ok_good r.info.T r.index r.Key r.Dealers 0
        (PubPoly.InitNull r.info.T commitBase) 0 0 _ hscan
      rwa [Nat.sub_zero] at this
    have heq := scanDealers_all_good r.info.T r.index r.Key r.Dealers 0
      (PubPoly.InitNull r.info.T commitBase) 0 0 (by rwa [Nat.sub_zero])
    rw [Nat.sub_zero] at heq
    rw [heq] at hscan
    have hcomp := Except.ok.inj hscan
    obtain ⟨hpub, hshare, hgood⟩ : pub = _ ∧ share = _ ∧ good = _ := by
      refine ⟨(Prod.mk.inj hcomp.symm).1, ?_, ?_⟩
      · exact (Prod.mk.inj (Prod.mk.inj hcomp.symm).2).1
      · exact (Prod.mk.inj (Prod.mk.inj hcomp.symm).2).2
    simp only at h
    split at h
    · exact absurd h (by simp)
    split at h
    · exact absurd h (by simp)
    rename_i hgoodT hcheck
    have hss : ss = ⟨pub, share, r.index⟩ := (Except.ok.inj h).symm
    have hTlen : r.info.T ≤ r.Dealers.length := by
      have hlen : (r.Dealers.take r.info.T).length = min r.info.T r.Dealers.length :=
        List.length_take _ _
      have : r.info.T ≤ good := Nat.le_of_not_lt hgoodT
      rw [hgood, Nat.zero_add, hlen] at this
      exact (le_min_iff.mp this).2
    have hchk : pub.Check r.index share = true := by
      revert hcheck; cases pub.Check r.index share <;> simp
    refine ⟨hTlen, hall, ?_, ?_, ?_, ?_⟩
    · rw [hss]; rw [hshare]; simp
    · rw [hss]; exact hpub
    · rw [hss]
    · rw [hss]; exact hchk

/-- Master error lemma: if the accepted dealers split as `ds1 ++ d :: ds2` where
all of `ds1` reveal successfully, `d`'s reveal fails, and `ds1` is shorter than
the threshold, then `ProduceSharedSecret` returns the reveal-failure error
naming the receiver's index and `d`'s position. -/
theorem produce_error_split (r : Receiver) (ds1 : List Dealer) (d : Dealer)
    (ds2 : List Dealer) (e : StateError)
    (hsplit : r.Dealers = ds1 ++ d :: ds2)
    (hgood : ∀ d' ∈ ds1, revealOk d' r.index r.Key = true)
    (hfail : d.state.RevealShare r.index r.Key = .error e)
    (hreach : ds1.length < r.info.T) :
    r.ProduceSharedSecret = .error (.revealFail r.index ds1.length e) := by
  unfold Receiver.ProduceSharedSecret
  rw [hsplit]
  rw [if_neg (by simp)]
  rw [scanDealers_error_split r.info.T r.index r.Key ds1 d ds2 0
    (PubPoly.InitNull r.info.T commitBase) 0 0 e hgood hfail (by omega)]
  simp

/-! Lemmas about `Dealer.AddResponse` sequences. -/

/-- Inversion of a successful `AddResponse`: the promise is untouched, the new
response is appended, it is valid for its index, and that index was free. -/
theorem addResponse_ok_inv (d : Dealer) (i : Int) (resp : Response) (d2 : Dealer)
    (h : d.AddResponse i resp = .ok d2) :
    d2.state.promise = d.state.promise ∧
    d2.state.responses = d.state.responses ++ [(i, resp)] ∧
    resp.idx = i ∧
    d.state.responses.lookup i = none := by
  unfold Dealer.AddResponse at h
  cases hst : d.state.AddResponse i resp with
  | error e => rw [hst] at h; exact absurd h (by simp)
  | ok st =>
    rw [hst] at h
    have hd2 : d2 = ⟨d.info, d.promise, st⟩ := (Except.ok.inj h).symm
    unfold State.AddResponse at hst
    split at hst
    · exact absurd hst (by simp)
    split at hst
    · exact absurd hst (by simp)
    split at hst
    · exact absurd hst (by simp)
    rename_i hdup hidx
    have hstv : st = ⟨d.state.promise, d.state.responses ++ [(i, resp)]⟩ :=
      (Except.ok.inj hst).symm
    refine ⟨?_, ?_, ?_, ?_⟩
    · rw [hd2, hstv]
    · rw [hd2, hstv]
    · exact Decidable.not_not.mp hidx
    · exact Option.not_isSome_iff_eq_none.mp hdup

/-- `applyResponses` never changes the promise held by the state. -/
theorem applyResponses_promise_eq (ops : List (Int × Response)) :
    ∀ d : Dealer, (d.applyResponses ops).state.promise = d.state.promise := by
  induction ops with
  | nil => intro d; rfl
  | cons op rest ih =>
    intro d
    obtain ⟨i, resp⟩ := op
    unfold Dealer.applyResponses
    cases hst : d.AddResponse i resp with
    | ok d2 => rw [ih d2, (addResponse_ok_inv d i resp d2 hst).1]
    | error e => exact ih d

/-- `applyResponses` never shrinks the recorded response list. -/
theorem applyResponses_length_le (ops : List (Int × Response)) :
    ∀ d : Dealer, d.state.responses.length ≤ (d.applyResponses ops).state.responses.length := by
  induction ops with
  | nil => intro d; exact Nat.le_refl _
  | cons op rest ih =>
    intro d
    obtain ⟨i, resp⟩ := op
    unfold Dealer.applyResponses
    cases hst : d.AddResponse i resp with
    | ok d2 =>
      have h2 := (addResponse_ok_inv d i resp d2 hst).2.1
      have : d.state.responses.length ≤ d2.state.responses.length := by
        rw [h2]; simp
      exact Nat.le_trans this (ih d2)
    | error e => exact ih d

/-- A `lookup` miss means the key is absent from the recorded indices. -/
theorem lookup_none_not_mem (i : Int) (l : List (Int × Response))
    (h : l.lookup i = none) : i ∉ l.map Prod.fst := by
  induction l with
  | nil => simp
  | cons a l ih =>
    obtain ⟨a1, a2⟩ := a
    simp only [List.lookup] at h
    cases hbeq : (i == a1) with
    | true => rw [hbeq] at h; exact absurd h (by simp)
    | false =>
      rw [hbeq] at h
      have hne : i ≠ a1 := by simpa using hbeq
      simp only [List.map_cons, List.mem_cons]
      rintro (hia | hmem)
      · exact hne hia
      · exact ih h hmem

/-- The response book-keeping invariant (distinct indices, each response valid
for its index) is preserved by any `AddResponse` sequence. -/
theorem applyResponses_inv (ops : List (Int × Response)) :
    ∀ d : Dealer,
      (d.state.responses.map Prod.fst).Nodup →
      (∀ pr ∈ d.state.responses, (Prod.snd pr).idx = Prod.fst pr) →
      ((d.applyResponses ops).state.responses.map Prod.fst).Nodup ∧
      (∀ pr ∈ (d.applyResponses ops).state.responses, (Prod.snd pr).idx = Prod.fst pr) := by
  induction ops with
  | nil => intro d h1 h2; exact ⟨h1, h2⟩
  | cons op rest ih =>
    intro d h1 h2
    obtain ⟨i, resp⟩ := op
    unfold Dealer.applyResponses
    cases hst : d.AddResponse i resp with
    | error e => exact ih d h1 h2
    | ok d2 =>
      obtain ⟨-, hresp, hvalid, hfree⟩ := addResponse_ok_inv d i resp d2 hst
      refine ih d2 ?_ ?_
      · rw [hresp, List.map_append]
        refine List.nodup_append.mpr ⟨h1, List.nodup_singleton _, ?_⟩
        intro x hx hx1
        simp only [List.map_cons, List.map_nil, List.mem_singleton] at hx1
        rw [hx1] at hx
        exact absurd hx (lookup_none_not_mem _ d.state.responses hfree)
      · intro pr hpr
        rw [hresp] at hpr
        rcases List.mem_append.mp hpr with hpr | hpr
        · exact h2 pr hpr
        · simp only [List.mem_singleton] at hpr
          subst hpr
          exact hvalid

/-- If a predicate holds on the first `n` elements of a list, filtering the list
does not change its first `n` elements. -/
theorem filter_take_of_forall {α : Type} (p : α → Bool) :
    ∀ (l : List α) (n : Nat), (∀ x ∈ l.take n, p x = true) →
      (l.filter p).take n = l.take n := by
  intro l
  induction l with
  | nil => intro n _; simp
  | cons x xs ih =>
    intro n h
    cases n with
    | zero => simp
    | succ n =>
      have hx : p x = true := h x (by simp)
      rw [List.take_succ_cons, List.filter_cons_of_pos hx, List.take_succ_cons,
        ih n (fun y hy => h y (by rw [List.take_succ_cons]; exact List.mem_cons_of_mem _ hy))]

/-- On an unbound receiver, `AddDealer` never produces the wrong-index error and
the receiver's index becomes the given one. -/
theorem addDealer_unbound_step (r : Receiver) (i : Int) (d : Dealer)
    (h : r.index = -1) :
    (r.AddDealer i d).recv.index = i ∧
    isWrongIndexErr (r.AddDealer i d).err = false ∧
    (r.AddDealer i d).recv.Key = r.Key := by
  unfold Receiver.AddDealer
  rw [if_pos h, if_neg (by simp)]
  cases hpr : d.promise.ProduceResponse i ({ r with index := i } : Receiver).Key with
  | ok resp => exact ⟨rfl, rfl, rfl⟩
  | error e => exact ⟨rfl, rfl, rfl⟩

/-! The claims. -/

/-- C1: every `SharedSecret` returned successfully by
`Receiver.ProduceSharedSecret` satisfies `Pub.Check(Index, Share) = true`, and
its `Index` field equals the receiver's bound index: the function verifies the
aggregate check before returning and fails with a consistency error instead of
returning a `SharedSecret` violating it. -/
theorem produceSharedSecret_check_invariant (r : Receiver) (ss : SharedSecret)
    (h : r.ProduceSharedSecret = .ok ss) :
    ss.Pub.Check ss.Index ss.Share = true ∧ ss.Index = r.index := by
  obtain ⟨-, -, -, -, hidx, hchk⟩ := produce_ok_parts r ss h
  exact ⟨by rw [hidx]; exact hchk, hidx⟩

/-- Witness for C1 at a concrete certified single-dealer setup. -/
theorem produceSharedSecret_check_invariant_witness :
    ssA.Pub.Check ssA.Index ssA.Share = true ∧ ssA.Index = rA.index :=
  produceSharedSecret_check_invariant rA ssA (by decide)

/-- C2 counterexample: two receivers that collected the same *set* of dealers
(the lists are permutations of each other) and both succeed, yet their aggregate
public polynomials differ and the cross-check fails — the aggregation depends on
the order in which the dealers were added, not only on the set. -/
theorem cross_receiver_same_set_cex :
    r1sw.Dealers.Perm r2sw.Dealers ∧
    r1sw.ProduceSharedSecret = .ok ssSw1 ∧
    r2sw.ProduceSharedSecret = .ok ssSw2 ∧
    ssSw1.Pub ≠ ssSw2.Pub ∧
    ssSw1.Pub.Check ssSw2.Index ssSw2.Share = false :=
  ⟨List.Perm.swap dB dA [], by decide, by decide, by decide, by decide⟩

/-- C2 (amended): for two receivers with the same `PolyInfo` that collected the
same dealers *in the same order* and for which `ProduceSharedSecret` succeeds,
the aggregate public polynomials are equal and each receiver's share verifies
against the other's aggregate commitment. -/
theorem cross_receiver_agreement (r1 r2 : Receiver) (ss1 ss2 : SharedSecret)
    (hinfo : r1.info = r2.info) (hdeal : r1.Dealers = r2.Dealers)
    (h1 : r1.ProduceSharedSecret = .ok ss1)
    (h2 : r2.ProduceSharedSecret = .ok ss2) :
    ss1.Pub = ss2.Pub ∧
    ss1.Pub.Check ss2.Index ss2.Share = true ∧
    ss2.Pub.Check ss1.Index ss1.Share = true := by
  obtain ⟨-, -, -, hpub1, hidx1, hchk1⟩ := produce_ok_parts r1 ss1 h1
  obtain ⟨-, -, -, hpub2, hidx2, hchk2⟩ := produce_ok_parts r2 ss2 h2
  have hpe : ss1.Pub = ss2.Pub := by rw [hpub1, hpub2, hinfo, hdeal]
  refine ⟨hpe, ?_, ?_⟩
  · rw [hpe, hidx2]; exact hchk2
  · rw [← hpe, hidx1]; exact hchk1

/-- Witness for the amended C2: two concrete receivers with indices 0 and 1 over
the same dealer list. -/
theorem cross_receiver_agreement_witness :
    ssA.Pub = ssB.Pub ∧
    ssA.Pub.Check ssB.Index ssB.Share = true ∧
    ssB.Pub.Check ssA.Index ssA.Share = true :=
  cross_receiver_agreement rA rB ssA ssB (by decide) (by decide) (by decide) (by decide)

/-- C3: a successful `ProduceSharedSecret` scanned the accepted dealers in order
and stopped at `T` good shares; the aggregate share is the sum of the revealed
shares of exactly the first `T` successfully-revealing dealers (which, on
success, are the first `T` dealers), and the aggregate `PubPoly` is the
coefficient-wise sum of those dealers' commitments starting from the `InitNull`
zero polynomial. -/
theorem produceSharedSecret_first_T_aggregation (r : Receiver) (ss : SharedSecret)
    (h : r.ProduceSharedSecret = .ok ss) :
    r.info.T ≤ r.Dealers.length ∧
    (r.Dealers.filter (fun d => revealOk d r.index r.Key)).take r.info.T =
      r.Dealers.take r.info.T ∧
    (∀ d ∈ r.Dealers.take r.info.T, revealOk d r.index r.Key = true) ∧
    ss.Share = ((r.Dealers.take r.info.T).map (fun d => revealVal d r.index r.Key)).sum ∧
    ss.Pub = (r.Dealers.take r.info.T).foldl (fun acc d => acc.Add d.promise.pub)
        (PubPoly.InitNull r.info.T commitBase) := by
  obtain ⟨hT, hall, hshare, hpub, -, -⟩ := produce_ok_parts r ss h
  exact ⟨hT, filter_take_of_forall _ r.Dealers r.info.T hall, hall, hshare, hpub⟩

/-- Witness for C3 at the concrete certified single-dealer setup. -/
theorem produceSharedSecret_first_T_aggregation_witness :
    rA.info.T ≤ rA.Dealers.length ∧
    (rA.Dealers.filter (fun d => revealOk d rA.index rA.Key)).take rA.info.T =
      rA.Dealers.take rA.info.T ∧
    (∀ d ∈ rA.Dealers.take rA.info.T, revealOk d rA.index rA.Key = true) ∧
    ssA.Share = ((rA.Dealers.take rA.info.T).map (fun d => revealVal d rA.index rA.Key)).sum ∧
    ssA.Pub = (rA.Dealers.take rA.info.T).foldl (fun acc d => acc.Add d.promise.pub)
        (PubPoly.InitNull rA.info.T commitBase) :=
  produceSharedSecret_first_T_aggregation rA ssA (by decide)

/-- C4 counterexample: a first `AddDealer` call with index `-1` does not bind
the receiver to `-1`; a subsequent call with the distinct index `0` succeeds
with no error and rebinds the index to `0`, where the claim demands an
index-mismatch failure with the index left unchanged. -/
theorem addDealer_first_bind_cex :
    (((Receiver.Init info1 key0).AddDealer (-1) dH).recv.AddDealer 0 dH).err = none ∧
    (((Receiver.Init info1 key0).AddDealer (-1) dH).recv.AddDealer 0 dH).recv.index = 0 ∧
    (0 : Int) ≠ (-1 : Int) :=
  ⟨by decide, by decide, by decide⟩

/-- C4 (amended): for any receiver, a first `AddDealer(i, d)` call with
`i ≠ -1` binds its index to `i`; while an index distinct from `-1` is bound,
every `AddDealer(j, d')` with `j` different from it fails with the
index-mismatch error and leaves the bound index unchanged; and `AddDealer` with
the bound index never fails with an index-mismatch error. -/
theorem addDealer_index_binding :
    (∀ (r : Receiver) (i : Int) (d : Dealer), r.index = -1 → i ≠ -1 →
      (r.AddDealer i d).recv.index = i) ∧
    (∀ (r : Receiver) (j : Int) (d : Dealer), r.index ≠ -1 → j ≠ r.index →
      (r.AddDealer j d).err = some (.wrongIndex j r.index) ∧
      (r.AddDealer j d).recv.index = r.index) ∧
    (∀ (r : Receiver) (d : Dealer), r.index ≠ -1 →
      isWrongIndexErr (r.AddDealer r.index d).err = false) := by
  refine ⟨?_, ?_, ?_⟩
  · intro r i d h _
    exact (addDealer_unbound_step r i d h).1
  · intro r j d h hj
    unfold Receiver.AddDealer
    rw [if_neg h, if_pos (fun hc => hj hc.symm)]
    exact ⟨rfl, rfl⟩
  · intro r d h
    unfold Receiver.AddDealer
    rw [if_neg h, if_neg (by simp)]
    cases hpr : d.promise.ProduceResponse r.index r.Key with
    | ok resp => rfl
    | error e => rfl

/-- Witness for the amended C4: binding, mismatch rejection, and same-index
re-use at concrete receivers. -/
theorem addDealer_index_binding_witness :
    ((Receiver.Init info1 key0).AddDealer 2 dH).recv.index = 2 ∧
    ((rBound.AddDealer 3 dH).err = some (.wrongIndex 3 rBound.index) ∧
      (rBound.AddDealer 3 dH).recv.index = rBound.index) ∧
    isWrongIndexErr (rBound.AddDealer rBound.index dH).err = false :=
  ⟨addDealer_index_binding.1 (Receiver.Init info1 key0) 2 dH (by decide) (by decide),
   addDealer_index_binding.2.1 rBound 3 dH (by decide) (by decide),
   addDealer_index_binding.2.2 rBound dH (by decide)⟩

/-- C5 counterexample: a receiver whose first accepted dealer fails
`RevealShare` while the second would reveal a good share (and `T = 1`, so one
good share suffices).  The claim's skip-and-continue semantics would succeed
using the second dealer; the code instead returns the reveal-failure error. -/
theorem reveal_failure_skip_cex :
    rBadGood.ProduceSharedSecret = .error (.revealFail 0 0 (.shortfall 0 1)) ∧
    revealOk dH rBadGood.index rBadGood.Key = true ∧
    rBadGood.info.T = 1 ∧
    produceOk rBadGood.ProduceSharedSecret = false :=
  ⟨by decide, by decide, by decide, by decide⟩

/-- C5 (amended): an accepted dealer whose `RevealShare` fails is not skipped:
`ProduceSharedSecret` returns immediately with the reveal-failure error at that
dealer's position; its share and `PubPoly` are not added to the aggregates and
the subsequent accepted dealers are not scanned (the result is the same
whatever dealers follow the failing one). -/
theorem reveal_failure_aborts (r : Receiver) (ds1 : List Dealer) (d : Dealer)
    (ds2 : List Dealer) (e : StateError)
    (hsplit : r.Dealers = ds1 ++ d :: ds2)
    (hgood : ∀ d' ∈ ds1, revealOk d' r.index r.Key = true)
    (hfail : d.state.RevealShare r.index r.Key = .error e)
    (hreach : ds1.length < r.info.T) :
    r.ProduceSharedSecret = .error (.revealFail r.index ds1.length e) ∧
    ∀ alt : List Dealer,
      Receiver.ProduceSharedSecret ⟨r.info, r.index, r.Key, ds1 ++ d :: alt⟩ =
        .error (.revealFail r.index ds1.length e) := by
  refine ⟨produce_error_split r ds1 d ds2 e hsplit hgood hfail hreach, fun alt => ?_⟩
  exact produce_error_split ⟨r.info, r.index, r.Key, ds1 ++ d :: alt⟩ ds1 d alt e
    rfl hgood hfail hreach

/-- Witness for the amended C5 at the concrete bad-then-good receiver. -/
theorem reveal_failure_aborts_witness :
    rBadGood.ProduceSharedSecret = .error (.revealFail rBadGood.index 0 (.shortfall 0 1)) ∧
    ∀ alt : List Dealer,
      Receiver.ProduceSharedSecret ⟨rBadGood.info, rBadGood.index, rBadGood.Key, dBad :: alt⟩ =
        .error (.revealFail rBadGood.index 0 (.shortfall 0 1)) :=
  reveal_failure_aborts rBadGood [] dBad [dH] (.shortfall 0 1)
    (by decide) (by simp) (by decide) (by decide)

/-- C6: whenever `RevealShare` fails for a dealer reached by the scan,
`ProduceSharedSecret` returns no `SharedSecret` and an error carrying both the
receiver's index and the failing dealer's position (the two `Sprintf` arguments
of the source's error message), so the caller can attribute blame. -/
theorem reveal_failure_error_attribution (r : Receiver) (ds1 : List Dealer)
    (d : Dealer) (ds2 : List Dealer) (e : StateError)
    (hsplit : r.Dealers = ds1 ++ d :: ds2)
    (hgood : ∀ d' ∈ ds1, revealOk d' r.index r.Key = true)
    (hfail : d.state.RevealShare r.index r.Key = .error e)
    (hreach : ds1.length < r.info.T) :
    produceOk r.ProduceSharedSecret = false ∧
    r.ProduceSharedSecret = .error (.revealFail r.index ds1.length e) := by
  have h := produce_error_split r ds1 d ds2 e hsplit hgood hfail hreach
  exact ⟨by rw [h]; rfl, h⟩

/-- Witness for C6 at the concrete good-then-bad receiver: the error names
receiver index 0 and dealer position 1. -/
theorem reveal_failure_error_attribution_witness :
    produceOk rGoodBad.ProduceSharedSecret = false ∧
    rGoodBad.ProduceSharedSecret = .error (.revealFail rGoodBad.index 1 (.shortfall 0 1)) :=
  reveal_failure_error_attribution rGoodBad [dH] dBad [] (.shortfall 0 1)
    (by decide) (by decide) (by decide) (by decide)

/-- C7 counterexample: a receiver with fewer than `T` good dealers where the
failure is the reveal-failure error, not the insufficient-shares error — the
scan aborts on the bad dealer before the insufficiency test is reached. -/
theorem insufficient_error_kind_cex :
    (rGoodBad.Dealers.filter (fun d => revealOk d rGoodBad.index rGoodBad.Key)).length <
      rGoodBad.info.T ∧
    rGoodBad.ProduceSharedSecret = .error (.revealFail 0 1 (.shortfall 0 1)) ∧
    rGoodBad.ProduceSharedSecret ≠ .error .insufficientShares :=
  ⟨by decide, by decide, by decide⟩

/-- C7 (amended): `ProduceSharedSecret` fails whenever fewer than `T` accepted
dealers yield a good `RevealShare` (including zero accepted dealers, which
fails with the zero-dealers error); the insufficiency error is produced when
every accepted dealer reveals successfully but fewer than `T` dealers are
accepted, while a failing dealer reached by the scan produces the
reveal-failure error instead; a `SharedSecret` is returned only if at least `T`
good shares were obtained. -/
theorem produce_failure_threshold (r : Receiver) :
    (∀ ss, r.ProduceSharedSecret = .ok ss →
      r.info.T ≤ (r.Dealers.filter (fun d => revealOk d r.index r.Key)).length) ∧
    ((r.Dealers.filter (fun d => revealOk d r.index r.Key)).length < r.info.T →
      produceOk r.ProduceSharedSecret = false) ∧
    (0 < r.Dealers.length → (∀ d ∈ r.Dealers, revealOk d r.index r.Key = true) →
      r.Dealers.length < r.info.T →
      r.ProduceSharedSecret = .error .insufficientShares) ∧
    (r.Dealers.length = 0 → r.ProduceSharedSecret = .error .zeroDealers) := by
  have hok : ∀ ss, r.ProduceSharedSecret = .ok ss →
      r.info.T ≤ (r.Dealers.filter (fun d => revealOk d r.index r.Key)).length := by
    intro ss h
    obtain ⟨hT, hall, -, -, -, -⟩ := produce_ok_parts r ss h
    have hfe : (r.Dealers.take r.info.T).filter (fun d => revealOk d r.index r.Key) =
        r.Dealers.take r.info.T := List.filter_eq_self.mpr hall
    have hlen : r.info.T =
        ((r.Dealers.take r.info.T).filter (fun d => revealOk d r.index r.Key)).length := by
      rw [hfe, List.length_take, Nat.min_eq_left hT]
    rw [hlen]
    conv_rhs => rw [← List.take_append_drop r.info.T r.Dealers]
    rw [List.filter_append, List.length_append]
    exact Nat.le_add_right _ _
  refine ⟨hok, ?_, ?_, ?_⟩
  · intro hlt
    cases hres : r.ProduceSharedSecret with
    | error e => rfl
    | ok ss => exact absurd (hok ss hres) (by omega)
  · intro hlen hall hcount
    unfold Receiver.ProduceSharedSecret
    rw [if_neg (by omega)]
    rw [scanDealers_all_good r.info.T r.index r.Key r.Dealers 0
      (PubPoly.InitNull r.info.T commitBase) 0 0
      (fun d hd => hall d (List.take_subset _ _ hd))]
    have hgl : 0 + (r.Dealers.take (r.info.T - 0)).length < r.info.T := by
      rw [Nat.sub_zero, List.length_take]
      omega
    simp only [if_pos hgl]
  · intro h0
    unfold Receiver.ProduceSharedSecret
    rw [if_pos (by omega)]

/-- Witness for the amended C7: a too-short all-good receiver hits the
insufficiency error, the empty receiver the zero-dealers error, a receiver with
a failing dealer fails, and a successful receiver has at least `T` good
dealers. -/
theorem produce_failure_threshold_witness :
    rShort.ProduceSharedSecret = .error .insufficientShares ∧
    rEmpty.ProduceSharedSecret = .error .zeroDealers ∧
    produceOk rGoodBad.ProduceSharedSecret = false ∧
    rA.info.T ≤ (rA.Dealers.filter (fun d => revealOk d rA.index rA.Key)).length :=
  ⟨(produce_failure_threshold rShort).2.2.1 (by decide) (by decide) (by decide),
   (produce_failure_threshold rEmpty).2.2.2 (by decide),
   (produce_failure_threshold rGoodBad).2.1 (by decide),
   (produce_failure_threshold rA).1 ssA (by decide)⟩

/-- C8: when `AddDealer` is called with the receiver's bound index, the dealer
is appended to the accepted list even if `Promise.ProduceResponse` fails, and
the call returns the produced response together with the propagated error from
`ProduceResponse`. -/
theorem addDealer_appends_even_on_failure (r : Receiver) (i : Int) (d : Dealer)
    (h : r.index = i) :
    (r.AddDealer i d).recv.Dealers = r.Dealers ++ [d] ∧
    (r.AddDealer i d).resp = (d.promise.ProduceResponse i r.Key).toOption ∧
    (r.AddDealer i d).err =
      (match d.promise.ProduceResponse i r.Key with
       | .ok _ => none
       | .error e => some (.responseFail e)) := by
  unfold Receiver.AddDealer
  have hidx : (if r.index = -1 then { r with index := i } else r).index = i := by
    split
    · rfl
    · exact h
  have hkey : (if r.index = -1 then { r with index := i } else r).Key = r.Key := by
    split <;> rfl
  have hdl : (if r.index = -1 then { r with index := i } else r).Dealers = r.Dealers := by
    split <;> rfl
  rw [if_neg (by rw [hidx]; simp)]
  rw [hkey]
  cases hpr : d.promise.ProduceResponse i r.Key with
  | ok resp => exact ⟨by rw [show ({ (if r.index = -1 then { r with index := i } else r)
      with Dealers := (if r.index = -1 then { r with index := i } else r).Dealers ++ [d] } :
      Receiver).Dealers = _ ++ [d] from rfl, hdl], rfl, rfl⟩
  | error e => exact ⟨by rw [show ({ (if r.index = -1 then { r with index := i } else r)
      with Dealers := (if r.index = -1 then { r with index := i } else r).Dealers ++ [d] } :
      Receiver).Dealers = _ ++ [d] from rfl, hdl], rfl, rfl⟩

/-- Witness for C8 at a bound receiver and a dealer whose `ProduceResponse`
fails (its promise holds no shares): the dealer is still appended and the error
is propagated. -/
theorem addDealer_appends_even_on_failure_witness :
    (rA.AddDealer 0 dEmpty).recv.Dealers = rA.Dealers ++ [dEmpty] ∧
    (rA.AddDealer 0 dEmpty).resp = (dEmpty.promise.ProduceResponse 0 rA.Key).toOption ∧
    (rA.AddDealer 0 dEmpty).err =
      (match dEmpty.promise.ProduceResponse 0 rA.Key with
       | .ok _ => none
       | .error e => some (.responseFail e)) :=
  addDealer_appends_even_on_failure rA 0 dEmpty rfl

/-- C9: starting from a dealer with no recorded responses, after any sequence
of `Dealer.AddResponse` calls `Dealer.Certified` succeeds exactly when the
number of recorded responses — which are pairwise distinct in index and each
valid for its index — has reached `R`, and once it succeeds it never reverts to
failing under any further sequence of operations. -/
theorem dealer_certified_monotone (d0 : Dealer) (h0 : d0.state.responses = [])
    (ops : List (Int × Response)) :
    ((d0.applyResponses ops).Certified = .ok () ↔
      (d0.applyResponses ops).state.promise.r ≤
        (d0.applyResponses ops).state.responses.length) ∧
    ((d0.applyResponses ops).state.responses.map Prod.fst).Nodup ∧
    (∀ pr ∈ (d0.applyResponses ops).state.responses, (Prod.snd pr).idx = Prod.fst pr) ∧
    ((d0.applyResponses ops).Certified = .ok () →
      ∀ ops2 : List (Int × Response),
        ((d0.applyResponses ops).applyResponses ops2).Certified = .ok ()) := by
  have hinv := applyResponses_inv ops d0 (by rw [h0]; simp) (by rw [h0]; simp)
  refine ⟨?_, hinv.1, hinv.2, ?_⟩
  · unfold Dealer.Certified State.PromiseCertified
    split
    · rename_i hle
      exact ⟨fun _ => hle, fun _ => rfl⟩
    · rename_i hgt
      exact ⟨fun hc => absurd hc (by simp), fun hle => absurd hle hgt⟩
  · intro hcert ops2
    have hle : (d0.applyResponses ops).state.promise.r ≤
        (d0.applyResponses ops).state.responses.length := by
      unfold Dealer.Certified State.PromiseCertified at hcert
      by_contra hlt
      rw [if_neg hlt] at hcert
      exact absurd hcert (by simp)
    have hmono := applyResponses_length_le ops2 (d0.applyResponses ops)
    have hprom := applyResponses_promise_eq ops2 (d0.applyResponses ops)
    unfold Dealer.Certified State.PromiseCertified
    rw [if_pos (by rw [hprom]; exact Nat.le_trans hle hmono)]

/-- Witness for C9: the uncertified dealer becomes certified after one valid
response (its `R` is 1), with the invariant conclusions instantiated. -/
theorem dealer_certified_monotone_witness :
    ((dBad.applyResponses [((0 : Int), ⟨0⟩)]).Certified = .ok () ↔
      (dBad.applyResponses [((0 : Int), ⟨0⟩)]).state.promise.r ≤
        (dBad.applyResponses [((0 : Int), ⟨0⟩)]).state.responses.length) ∧
    ((dBad.applyResponses [((0 : Int), ⟨0⟩)]).state.responses.map Prod.fst).Nodup ∧
    (∀ pr ∈ (dBad.applyResponses [((0 : Int), ⟨0⟩)]).state.responses,
      (Prod.snd pr).idx = Prod.fst pr) ∧
    ((dBad.applyResponses [((0 : Int), ⟨0⟩)]).Certified = .ok () →
      ∀ ops2 : List (Int × Response),
        ((dBad.applyResponses [((0 : Int), ⟨0⟩)]).applyResponses ops2).Certified = .ok ()) :=
  dealer_certified_monotone dBad rfl [((0 : Int), ⟨0⟩)]

/-- C10: on a freshly initialized receiver, `AddDealer` with the sentinel index
`-1` produces no index-mismatch error and leaves the receiver unbound, so a
subsequent `AddDealer` with any index `j` rebinds the index to `j` instead of
failing with an index-mismatch error. -/
theorem addDealer_unbound_sentinel (info : PolyInfo) (key : KeyPair) (d : Dealer)
    (j : Int) (d2 : Dealer) :
    isWrongIndexErr (((Receiver.Init info key).AddDealer (-1) d).err) = false ∧
    ((Receiver.Init info key).AddDealer (-1) d).recv.index = -1 ∧
    ((((Receiver.Init info key).AddDealer (-1) d).recv.AddDealer j d2).recv.index = j) ∧
    isWrongIndexErr ((((Receiver.Init info key).AddDealer (-1) d).recv.AddDealer j d2).err)
      = false := by
  have h1 := addDealer_unbound_step (Receiver.Init info key) (-1) d rfl
  have h2 := addDealer_unbound_step ((Receiver.Init info key).AddDealer (-1) d).recv j d2 h1.1
  exact ⟨h1.2.1, h1.1, h2.1, h2.2.1⟩

end Joint
